import Mathlib

/-!
# Inventory reservation core of the aether backend — verification development

This file embeds the inventory-reservation core of the e-commerce backend:
the four server-side atomic scripts (`scripts/reserve-stock.lua`,
`scripts/release-reservation.lua`, `scripts/commit-reservation.lua`,
`scripts/batch-reserve-stock.lua`), the `InventoryService` wrappers in
`src/services/CacheService.js`, and the expiry sweeper
(`InventoryService.cleanupExpiredReservations`, invoked from
`src/workers/processors/inventory.js`).

The backing Redis store is modelled by two association maps:
* stock keys `stock:sku:{sku}` — per-SKU integer counters, never given a TTL;
  a missing key reads as `0` (every script reads `GET ... or "0"`);
* reservation keys `reservation:{orderId}:{sku}` — integer quantities written
  with `SET ... EX ttl`, keyed structurally by the `(orderId, sku)` pair
  (the key-building helpers `getStockKey`/`getReservationKey` are injective
  on ids without colons, so the structural keying is faithful).

Time is an explicit `now : Int` parameter; a reservation entry written at
time `w` with TTL `t` carries the absolute expiry instant `w + t` and is
readable exactly while `now < expiry`, matching Redis key-expiry semantics.
Each Lua script runs atomically inside Redis, so each is one pure function
from store to store.
-/

namespace Aether

/-- Insert-or-replace in an association list (the model of a keyed store
write: `SET key value`). Replaces the first binding of the key in place,
appends a fresh binding at the end. -/
def alSet {α : Type} {β : Type} [DecidableEq α] : List (α × β) → α → β → List (α × β)
  | [], k, v => [(k, v)]
  | (a, b) :: t, k, v => if k = a then (k, v) :: t else (a, b) :: alSet t k v

/-- First-match lookup in an association list (the model of `GET key`). -/
def alGet {α : Type} {β : Type} [DecidableEq α] : List (α × β) → α → Option β
  | [], _ => none
  | (a, b) :: t, k => if k = a then some b else alGet t k

/-- Remove every binding of a key (the model of `DEL key`). -/
def alDel {α : Type} {β : Type} [DecidableEq α] : List (α × β) → α → List (α × β)
  | [], _ => []
  | (a, b) :: t, k => if k = a then alDel t k else (a, b) :: alDel t k

/-- Stock counters: `stock:sku:{sku}` ↦ integer value. -/
abbrev StockMap := List (String × Int)

/-- Reservation records: `reservation:{orderId}:{sku}` ↦
(quantity, absolute expiry instant). -/
abbrev ResvMap := List ((String × String) × Int × Int)

/-- The shared fast store as the reservation core sees it. -/
structure Store where
  stock : StockMap
  resv : ResvMap
deriving DecidableEq

/-- `GET stock:sku:{sku}` with the scripts' `or "0"` default: a missing
stock key reads as zero. -/
def getStock (s : Store) (sku : String) : Int :=
  (alGet s.stock sku).getD 0

/-- `GET reservation:{orderId}:{sku}` at time `now`: an entry past its
expiry instant behaves as absent. -/
def getResv (now : Int) (s : Store) (orderId sku : String) : Option Int :=
  match alGet s.resv (orderId, sku) with
  | some (q, e) => if now < e then some q else none
  | none => none

/-- `scripts/reserve-stock.lua`: read the stock (or 0), and when
`stock >= qty` do `DECRBY stock qty` and `SET reservation qty EX ttl`,
returning `{1, stock - qty}`; otherwise change nothing and return
`{0, stock}`. -/
def reserveScript (now : Int) (orderId sku : String) (qty ttl : Int)
    (s : Store) : (Int × Int) × Store :=
  let stock := getStock s sku
  if stock ≥ qty then
    let s1 : Store := { s with stock := alSet s.stock sku (stock - qty) }
    let s2 : Store := { s1 with resv := alSet s1.resv (orderId, sku) (qty, now + ttl) }
    ((1, stock - qty), s2)
  else
    ((0, stock), s)

/-- `scripts/release-reservation.lua`: when the reservation key is readable,
`INCRBY stock qty`, `DEL reservation`, and return `{1, qty, newStock}`
(with `newStock` re-read after the increment); otherwise return
`{0, 0, currentStock}` and change nothing. -/
def releaseScript (now : Int) (orderId sku : String)
    (s : Store) : (Int × Int × Int) × Store :=
  match getResv now s orderId sku with
  | some qty =>
      let s1 : Store := { s with stock := alSet s.stock sku (getStock s sku + qty) }
      let s2 : Store := { s1 with resv := alDel s1.resv (orderId, sku) }
      ((1, qty, getStock s2 sku), s2)
  | none => ((0, 0, getStock s sku), s)

/-- `scripts/commit-reservation.lua`: when the reservation key is readable,
`DEL reservation` only — the stock key is never written — and return
`{1, qty, currentStock}`; otherwise return `{0, 0, currentStock}` and
change nothing. -/
def commitScript (now : Int) (orderId sku : String)
    (s : Store) : (Int × Int × Int) × Store :=
  match getResv now s orderId sku with
  | some qty =>
      let s1 : Store := { s with resv := alDel s.resv (orderId, sku) }
      ((1, qty, getStock s1 sku), s1)
  | none => ((0, 0, getStock s sku), s)

/-- One phase-two step of `scripts/batch-reserve-stock.lua`:
`DECRBY stockKey qty` (read-modify-write on the current store) followed by
`SET reservationKey qty EX ttl`. -/
def batchApplyItem (now : Int) (orderId : String) (ttl : Int)
    (s : Store) (it : String × Int) : Store :=
  { stock := alSet s.stock it.1 (getStock s it.1 - it.2),
    resv := alSet s.resv (orderId, it.1) (it.2, now + ttl) }

/-- `scripts/batch-reserve-stock.lua`, called as `InventoryService.
batchReserveStock` builds its KEYS/ARGV: one `orderId`, one shared `ttl`,
and `items` as (sku, quantity) pairs. Phase one checks every item against
the *unmutated* store and builds the per-item result rows
`(sku, flag, available, requested)`; phase two runs only when every item
passed, and then applies every decrement and reservation write in order. -/
def batchReserveScript (now : Int) (orderId : String)
    (items : List (String × Int)) (ttl : Int) (s : Store) :
    (Int × List (String × Int × Int × Int)) × Store :=
  let results := items.map (fun it =>
    if getStock s it.1 < it.2 then (it.1, 0, getStock s it.1, it.2)
    else (it.1, 1, getStock s it.1, it.2))
  let allSuccess := items.all (fun it => !decide (getStock s it.1 < it.2))
  if allSuccess then
    ((1, results), items.foldl (batchApplyItem now orderId ttl) s)
  else
    ((0, results), s)

/-- The JS-level outcome of `InventoryService.reserveStock`: on script
success it reports `{success, reservedQuantity, remainingStock}`, on script
failure `{success: false, availableStock, requestedQuantity}`. -/
inductive ReserveOutcome where
  | ok (reservedQuantity remainingStock : Int)
  | insufficient (availableStock requestedQuantity : Int)
deriving DecidableEq

/-- `InventoryService.reserveStock`: run the reserve script and translate
its `[success, remainingStock]` pair into the service's result object. -/
def reserveStock (now : Int) (orderId sku : String) (qty ttl : Int)
    (s : Store) : ReserveOutcome × Store :=
  let r := reserveScript now orderId sku qty ttl s
  if r.1.1 = 1 then (.ok qty r.1.2, r.2)
  else (.insufficient r.1.2 qty, r.2)

/-- `InventoryService.cleanupExpiredReservations` (the Sweeper's expiry
duty, run by the `cleanupExpiredReservations` job in
`src/workers/processors/inventory.js`): scan the reservation keys, and for
each whose remaining TTL is `<= 0` issue `DEL` and count it. No stock key
is ever written. (Under live Redis semantics an expired key has already
vanished from the scan; either way the ledger is untouched.) -/
def cleanupExpiredReservations (now : Int) (s : Store) : Nat × Store :=
  let expired := s.resv.filter (fun e => decide (e.2.2 - now ≤ 0))
  (expired.length, { s with resv := s.resv.filter (fun e => decide (now < e.2.2)) })

/-! ## Association-list lemmas -/

theorem alGet_alSet_self {α β : Type} [DecidableEq α] (l : List (α × β)) (k : α) (v : β) :
    alGet (alSet l k v) k = some v := by
  induction l with
  | nil => simp [alSet, alGet]
  | cons hd tl ih =>
      obtain ⟨a, b⟩ := hd
      by_cases h : k = a
      · simp [alSet, alGet, h]
      · simp [alSet, alGet, h, ih]

theorem alGet_alSet_ne {α β : Type} [DecidableEq α] (l : List (α × β)) (k k' : α) (v : β)
    (h : k' ≠ k) : alGet (alSet l k v) k' = alGet l k' := by
  induction l with
  | nil => simp [alSet, alGet, h]
  | cons hd tl ih =>
      obtain ⟨a, b⟩ := hd
      by_cases hk : k = a
      · subst hk
        simp [alSet, alGet, h, ih]
      · by_cases hk' : k' = a
        · simp [alSet, alGet, hk, hk']
        · simp [alSet, alGet, hk, hk', ih]

theorem alGet_alDel_self {α β : Type} [DecidableEq α] (l : List (α × β)) (k : α) :
    alGet (alDel l k) k = none := by
  induction l with
  | nil => simp [alDel, alGet]
  | cons hd tl ih =>
      obtain ⟨a, b⟩ := hd
      by_cases h : k = a
      · subst h
        simpa [alDel] using ih
      · simp [alDel, alGet, h, ih]

theorem alGet_alDel_ne {α β : Type} [DecidableEq α] (l : List (α × β)) (k k' : α)
    (h : k' ≠ k) : alGet (alDel l k) k' = alGet l k' := by
  induction l with
  | nil => simp [alDel]
  | cons hd tl ih =>
      obtain ⟨a, b⟩ := hd
      by_cases hk : k = a
      · subst hk
        simp [alDel, alGet, h, ih]
      · by_cases hk' : k' = a
        · simp [alDel, alGet, hk, hk']
        · simp [alDel, alGet, hk, hk', ih]

theorem alGet_none_iff_not_mem_keys {α β : Type} [DecidableEq α] (l : List (α × β)) (k : α) :
    alGet l k = none ↔ k ∉ l.map Prod.fst := by
  induction l with
  | nil => simp [alGet]
  | cons hd tl ih =>
      obtain ⟨a, b⟩ := hd
      by_cases h : k = a
      · simp [alGet, h]
      · simp [alGet, h, ih]

theorem alSet_of_alGet_none {α β : Type} [DecidableEq α] (l : List (α × β)) (k : α) (v : β)
    (h : alGet l k = none) : alSet l k v = l ++ [(k, v)] := by
  induction l with
  | nil => simp [alSet]
  | cons hd tl ih =>
      obtain ⟨a, b⟩ := hd
      by_cases hk : k = a
      · simp [alGet, hk] at h
      · simp [alGet, hk] at h
        simp [alSet, hk, ih h]

theorem alDel_of_alGet_none {α β : Type} [DecidableEq α] (l : List (α × β)) (k : α)
    (h : alGet l k = none) : alDel l k = l := by
  induction l with
  | nil => simp [alDel]
  | cons hd tl ih =>
      obtain ⟨a, b⟩ := hd
      by_cases hk : k = a
      · simp [alGet, hk] at h
      · simp [alGet, hk] at h
        simp [alDel, hk, ih h]

theorem mem_of_alGet_eq_some {α β : Type} [DecidableEq α] (l : List (α × β)) (k : α) (v : β)
    (h : alGet l k = some v) : (k, v) ∈ l := by
  induction l with
  | nil => simp [alGet] at h
  | cons hd tl ih =>
      obtain ⟨a, b⟩ := hd
      by_cases hk : k = a
      · simp [alGet, hk] at h
        simp [hk, h]
      · simp [alGet, hk] at h
        exact List.mem_cons_of_mem _ (ih h)

theorem keys_alDel_sublist {α β : Type} [DecidableEq α] (l : List (α × β)) (k : α) :
    ((alDel l k).map Prod.fst).Sublist (l.map Prod.fst) := by
  induction l with
  | nil => simp [alDel]
  | cons hd tl ih =>
      obtain ⟨a, b⟩ := hd
      by_cases hk : k = a
      · simp only [alDel, if_pos hk, List.map_cons]
        exact ih.trans (List.sublist_cons_self _ _)
      · simp only [alDel, if_neg hk, List.map_cons]
        exact ih.cons₂ a

theorem mem_alDel {α β : Type} [DecidableEq α] (l : List (α × β)) (k : α) (e : α × β)
    (h : e ∈ alDel l k) : e ∈ l := by
  induction l with
  | nil => simp [alDel] at h
  | cons hd tl ih =>
      obtain ⟨a, b⟩ := hd
      by_cases hk : k = a
      · simp only [alDel, if_pos hk] at h
        exact List.mem_cons_of_mem _ (ih h)
      · simp only [alDel, if_neg hk, List.mem_cons] at h
        rcases h with h | h
        · exact h ▸ List.mem_cons_self _ _
        · exact List.mem_cons_of_mem _ (ih h)

/-! ## Store-level helper lemmas -/

theorem getResv_eq_some (now : Int) (s : Store) (o sk : String) (q : Int) :
    getResv now s o sk = some q ↔
      ∃ e, alGet s.resv (o, sk) = some (q, e) ∧ now < e := by
  unfold getResv
  cases hg : alGet s.resv (o, sk) with
  | none => simp
  | some qe =>
      obtain ⟨q', e⟩ := qe
      by_cases he : now < e
      · simp only [if_pos he, Option.some.injEq]
        constructor
        · rintro rfl
          exact ⟨e, rfl, he⟩
        · rintro ⟨e', he', _⟩
          simp only [Option.some.injEq, Prod.mk.injEq] at he'
          exact he'.1
      · simp only [if_neg he]
        constructor
        · intro h
          simp at h
        · rintro ⟨e', he', hn⟩
          simp only [Option.some.injEq, Prod.mk.injEq] at he'
          exact absurd (he'.2 ▸ hn) he

theorem getStock_set_resv (s : Store) (r : ResvMap) (sku : String) :
    getStock { s with resv := r } sku = getStock s sku := rfl

theorem getStock_alSet_self (st : StockMap) (r : ResvMap) (sku : String) (v : Int) :
    getStock ⟨alSet st sku v, r⟩ sku = v := by
  show (alGet (alSet st sku v) sku).getD 0 = v
  rw [alGet_alSet_self]
  rfl

theorem getStock_alSet_ne (s : Store) (r : ResvMap) (sku sk : String) (v : Int)
    (h : sku ≠ sk) : getStock ⟨alSet s.stock sk v, r⟩ sku = getStock s sku := by
  show (alGet (alSet s.stock sk v) sku).getD 0 = getStock s sku
  rw [alGet_alSet_ne _ _ _ _ h]
  rfl

/-- Quantities currently held for a SKU: the sum of the quantities of its
live (unexpired) reservation records. -/
def heldSum (now : Int) (sku : String) (rs : ResvMap) : Int :=
  (rs.map (fun e => if e.1.2 = sku ∧ now < e.2.2 then e.2.1 else 0)).sum

theorem heldSum_nil (now : Int) (sku : String) : heldSum now sku [] = 0 := rfl

theorem heldSum_cons (now : Int) (sku : String) (e : (String × String) × Int × Int)
    (rs : ResvMap) :
    heldSum now sku (e :: rs)
      = (if e.1.2 = sku ∧ now < e.2.2 then e.2.1 else 0) + heldSum now sku rs := by
  simp [heldSum]

theorem heldSum_append (now : Int) (sku : String) (l1 l2 : ResvMap) :
    heldSum now sku (l1 ++ l2) = heldSum now sku l1 + heldSum now sku l2 := by
  simp [heldSum]

theorem heldSum_alSet_fresh (now : Int) (sku : String) (rs : ResvMap)
    (k : String × String) (q e : Int) (h : alGet rs k = none) :
    heldSum now sku (alSet rs k (q, e))
      = heldSum now sku rs + (if k.2 = sku ∧ now < e then q else 0) := by
  rw [alSet_of_alGet_none rs k (q, e) h, heldSum_append, heldSum_cons, heldSum_nil]
  ring

theorem heldSum_alDel (now : Int) (sku : String) (rs : ResvMap) (k : String × String)
    (q e : Int) (hnd : (rs.map Prod.fst).Nodup) (hget : alGet rs k = some (q, e)) :
    heldSum now sku (alDel rs k)
      = heldSum now sku rs - (if k.2 = sku ∧ now < e then q else 0) := by
  induction rs with
  | nil => simp [alGet] at hget
  | cons hd tl ih =>
      obtain ⟨a, b⟩ := hd
      simp only [List.map_cons, List.nodup_cons] at hnd
      by_cases hk : k = a
      · subst hk
        have hb : b = (q, e) := by simpa [alGet] using hget
        subst hb
        have hnone : alGet tl k = none :=
          (alGet_none_iff_not_mem_keys tl k).mpr hnd.1
        have hdel : alDel ((k, (q, e)) :: tl) k = tl := by
          simp [alDel, alDel_of_alGet_none tl k hnone]
        rw [hdel, heldSum_cons]
        simp only
        ring
      · simp only [alGet, if_neg hk] at hget
        have hdel : alDel ((a, b) :: tl) k = (a, b) :: alDel tl k := by
          simp [alDel, hk]
        rw [hdel, heldSum_cons, heldSum_cons, ih hnd.2 hget]
        ring

/-! ## Single-operation claims -/

/-- C3: `reserveStock(orderId, sku, qty, ttl)` with `qty > 0`: when ledger
stock is below `qty` the call fails reporting `availableStock = stock` and
`requestedQuantity = qty` and leaves the whole store unchanged; otherwise it
decrements the ledger by `qty`, records a reservation of quantity `qty`
expiring after the given TTL, and reports success with `stock - qty`. -/
theorem reserveStock_spec (now : Int) (orderId sku : String) (qty ttl : Int)
    (s : Store) (hq : 0 < qty) :
    (getStock s sku < qty →
      reserveStock now orderId sku qty ttl s
        = (.insufficient (getStock s sku) qty, s)) ∧
    (qty ≤ getStock s sku →
      (reserveStock now orderId sku qty ttl s).1
          = .ok qty (getStock s sku - qty) ∧
      getStock (reserveStock now orderId sku qty ttl s).2 sku
          = getStock s sku - qty ∧
      alGet (reserveStock now orderId sku qty ttl s).2.resv (orderId, sku)
          = some (qty, now + ttl)) := by
  constructor
  · intro h
    have hlt : ¬ getStock s sku ≥ qty := not_le.mpr h
    simp [reserveStock, reserveScript, hlt]
  · intro h
    have hge : getStock s sku ≥ qty := h
    have hres : reserveStock now orderId sku qty ttl s
        = (.ok qty (getStock s sku - qty),
            ⟨alSet s.stock sku (getStock s sku - qty),
              alSet s.resv (orderId, sku) (qty, now + ttl)⟩) := by
      simp [reserveStock, reserveScript, hge]
    rw [hres]
    refine ⟨rfl, ?_, ?_⟩
    · simp [getStock, alGet_alSet_self]
    · simp [alGet_alSet_self]

theorem reserveStock_spec_witness :
    ((0:Int) < 3 ∧
      (3:Int) ≤ getStock ⟨[("SKU-1", 10)], []⟩ "SKU-1" ∧
      (reserveStock 0 "o1" "SKU-1" 3 900 ⟨[("SKU-1", 10)], []⟩).1 = .ok 3 7 ∧
      getStock (reserveStock 0 "o1" "SKU-1" 3 900 ⟨[("SKU-1", 10)], []⟩).2 "SKU-1" = 7 ∧
      alGet (reserveStock 0 "o1" "SKU-1" 3 900 ⟨[("SKU-1", 10)], []⟩).2.resv
        ("o1", "SKU-1") = some (3, 900)) ∧
    ((0:Int) < 5 ∧
      getStock (⟨[("SKU-2", 2)], []⟩ : Store) "SKU-2" < 5 ∧
      reserveStock 0 "o2" "SKU-2" 5 900 ⟨[("SKU-2", 2)], []⟩
        = (.insufficient 2 5, ⟨[("SKU-2", 2)], []⟩)) := by
  constructor
  · have h := (reserveStock_spec 0 "o1" "SKU-1" 3 900 ⟨[("SKU-1", 10)], []⟩
      (by decide)).2 (by decide)
    exact ⟨by decide, by decide, h.1.trans (by decide), h.2.1.trans (by decide),
      h.2.2.trans (by decide)⟩
  · have h := (reserveStock_spec 0 "o2" "SKU-2" 5 900 ⟨[("SKU-2", 2)], []⟩
      (by decide)).1 (by decide)
    exact ⟨by decide, by decide, h.trans (by decide)⟩

/-- C6: the first release of an existing reservation of quantity `q`
deletes it and increments the ledger by exactly `q`; a second release in a
row reports `released = 0` with the current stock, changes nothing, and in
particular does not increment the ledger again. -/
theorem releaseReservation_idempotent (now : Int) (orderId sku : String)
    (q : Int) (s : Store) (h : getResv now s orderId sku = some q) :
    (releaseScript now orderId sku s).1 = (1, q, getStock s sku + q) ∧
    getStock (releaseScript now orderId sku s).2 sku = getStock s sku + q ∧
    getResv now (releaseScript now orderId sku s).2 orderId sku = none ∧
    releaseScript now orderId sku (releaseScript now orderId sku s).2
      = ((0, 0, getStock s sku + q), (releaseScript now orderId sku s).2) := by
  have hres : releaseScript now orderId sku s
      = ((1, q, getStock s sku + q),
          ⟨alSet s.stock sku (getStock s sku + q), alDel s.resv (orderId, sku)⟩) := by
    unfold releaseScript
    rw [h]
    simp [getStock, alGet_alSet_self]
  have h2 : getResv now (⟨alSet s.stock sku (getStock s sku + q),
      alDel s.resv (orderId, sku)⟩ : Store) orderId sku = none := by
    simp [getResv, alGet_alDel_self]
  refine ⟨by rw [hres], ?_, ?_, ?_⟩
  · rw [hres]
    simp [getStock, alGet_alSet_self]
  · rw [hres]
    exact h2
  · rw [hres]
    unfold releaseScript
    rw [h2]
    simp [getStock, alGet_alSet_self]

theorem releaseReservation_idempotent_witness :
    getResv 0 ⟨[("SKU-1", 7)], [(("o1", "SKU-1"), (3, 900))]⟩ "o1" "SKU-1" = some 3 ∧
    ((releaseScript 0 "o1" "SKU-1"
        (⟨[("SKU-1", 7)], [(("o1", "SKU-1"), (3, 900))]⟩ : Store)).1 = (1, 3, 10) ∧
      getStock (releaseScript 0 "o1" "SKU-1"
        (⟨[("SKU-1", 7)], [(("o1", "SKU-1"), (3, 900))]⟩ : Store)).2 "SKU-1" = 10 ∧
      getResv 0 (releaseScript 0 "o1" "SKU-1"
        (⟨[("SKU-1", 7)], [(("o1", "SKU-1"), (3, 900))]⟩ : Store)).2 "o1" "SKU-1" = none ∧
      releaseScript 0 "o1" "SKU-1" (releaseScript 0 "o1" "SKU-1"
          (⟨[("SKU-1", 7)], [(("o1", "SKU-1"), (3, 900))]⟩ : Store)).2
        = ((0, 0, 10), (releaseScript 0 "o1" "SKU-1"
            (⟨[("SKU-1", 7)], [(("o1", "SKU-1"), (3, 900))]⟩ : Store)).2)) := by
  have h := releaseReservation_idempotent 0 "o1" "SKU-1" 3
    ⟨[("SKU-1", 7)], [(("o1", "SKU-1"), (3, 900))]⟩ (by decide)
  exact ⟨by decide, h.1.trans (by decide), h.2.1.trans (by decide), h.2.2.1,
    h.2.2.2.trans (by decide)⟩

/-- C7: commit never writes the stock key: the store's stock map is
unchanged in every case; with a live reservation of quantity `q` it deletes
only the reservation and returns `(1, q, currentStock)`, and a duplicate
commit right after returns `(0, 0, currentStock)` with the same stock and
no further change. -/
theorem commitReservation_frame (now : Int) (orderId sku : String) (s : Store) :
    ((commitScript now orderId sku s).2).stock = s.stock ∧
    (∀ q, getResv now s orderId sku = some q →
      (commitScript now orderId sku s).1 = (1, q, getStock s sku) ∧
      getResv now (commitScript now orderId sku s).2 orderId sku = none ∧
      commitScript now orderId sku (commitScript now orderId sku s).2
        = ((0, 0, getStock s sku), (commitScript now orderId sku s).2)) ∧
    (getResv now s orderId sku = none →
      commitScript now orderId sku s = ((0, 0, getStock s sku), s)) := by
  refine ⟨?_, ?_, ?_⟩
  · cases hm : getResv now s orderId sku with
    | none =>
        unfold commitScript
        rw [hm]
    | some q =>
        unfold commitScript
        rw [hm]
  · intro q hm
    have hres : commitScript now orderId sku s
        = ((1, q, getStock s sku), ⟨s.stock, alDel s.resv (orderId, sku)⟩) := by
      unfold commitScript
      rw [hm]
      simp [getStock]
    have h2 : getResv now (⟨s.stock, alDel s.resv (orderId, sku)⟩ : Store)
        orderId sku = none := by
      simp [getResv, alGet_alDel_self]
    refine ⟨by rw [hres], ?_, ?_⟩
    · rw [hres]
      exact h2
    · rw [hres]
      unfold commitScript
      rw [h2]
      simp [getStock]
  · intro hm
    unfold commitScript
    rw [hm]

theorem commitReservation_frame_witness :
    getResv 0 ⟨[("SKU-1", 7)], [(("o1", "SKU-1"), (3, 900))]⟩ "o1" "SKU-1" = some 3 ∧
    ((commitScript 0 "o1" "SKU-1"
        (⟨[("SKU-1", 7)], [(("o1", "SKU-1"), (3, 900))]⟩ : Store)).2).stock
      = [("SKU-1", 7)] ∧
    (commitScript 0 "o1" "SKU-1"
        (⟨[("SKU-1", 7)], [(("o1", "SKU-1"), (3, 900))]⟩ : Store)).1 = (1, 3, 7) ∧
    commitScript 0 "o1" "SKU-1" (commitScript 0 "o1" "SKU-1"
        (⟨[("SKU-1", 7)], [(("o1", "SKU-1"), (3, 900))]⟩ : Store)).2
      = ((0, 0, 7), (commitScript 0 "o1" "SKU-1"
          (⟨[("SKU-1", 7)], [(("o1", "SKU-1"), (3, 900))]⟩ : Store)).2) := by
  have h := commitReservation_frame 0 "o1" "SKU-1"
    ⟨[("SKU-1", 7)], [(("o1", "SKU-1"), (3, 900))]⟩
  have h2 := h.2.1 3 (by decide)
  exact ⟨by decide, h.1.trans (by decide), h2.1.trans (by decide),
    h2.2.2.trans (by decide)⟩

/-- C9: the reserve path never validates the spec's `qty > 0` precondition:
for `qty ≤ 0` with `stock ≥ qty` the call succeeds, moves the ledger to
`stock - qty` (an increase for negative `qty`), and records a reservation
carrying the non-positive quantity. -/
theorem reserveStock_no_qty_validation (now : Int) (orderId sku : String)
    (qty ttl : Int) (s : Store) (hq : qty ≤ 0) (hs : qty ≤ getStock s sku) :
    (reserveStock now orderId sku qty ttl s).1 = .ok qty (getStock s sku - qty) ∧
    getStock (reserveStock now orderId sku qty ttl s).2 sku = getStock s sku - qty ∧
    getStock s sku ≤ getStock (reserveStock now orderId sku qty ttl s).2 sku ∧
    alGet (reserveStock now orderId sku qty ttl s).2.resv (orderId, sku)
      = some (qty, now + ttl) := by
  have hge : getStock s sku ≥ qty := hs
  have hres : reserveStock now orderId sku qty ttl s
      = (.ok qty (getStock s sku - qty),
          ⟨alSet s.stock sku (getStock s sku - qty),
            alSet s.resv (orderId, sku) (qty, now + ttl)⟩) := by
    simp [reserveStock, reserveScript, hge]
  have hstock : getStock (reserveStock now orderId sku qty ttl s).2 sku
      = getStock s sku - qty := by
    rw [hres]
    simp [getStock, alGet_alSet_self]
  refine ⟨by rw [hres], hstock, ?_, ?_⟩
  · rw [hstock]
    omega
  · rw [hres]
    simp [alGet_alSet_self]

theorem reserveStock_no_qty_validation_witness :
    (-5 : Int) ≤ 0 ∧ (-5 : Int) ≤ getStock (⟨[("SKU-1", 0)], []⟩ : Store) "SKU-1" ∧
    ((reserveStock 0 "o1" "SKU-1" (-5) 900 ⟨[("SKU-1", 0)], []⟩).1 = .ok (-5) 5 ∧
      getStock (reserveStock 0 "o1" "SKU-1" (-5) 900 ⟨[("SKU-1", 0)], []⟩).2 "SKU-1" = 5 ∧
      alGet (reserveStock 0 "o1" "SKU-1" (-5) 900 ⟨[("SKU-1", 0)], []⟩).2.resv
        ("o1", "SKU-1") = some (-5, 900)) := by
  have h := reserveStock_no_qty_validation 0 "o1" "SKU-1" (-5) 900
    ⟨[("SKU-1", 0)], []⟩ (by decide) (by decide)
  exact ⟨by decide, by decide, h.1.trans (by decide), h.2.1.trans (by decide),
    h.2.2.2.trans (by decide)⟩

/-- C2: the Sweeper's expiry duty never compensates the ledger: the
cleanup job never writes a stock key at all, and in the spec's scenario
(stock 10, reserve qty=4 with ttl=1, wait past expiry) the ledger stays at
6 — it is never restored to 10, no matter how often the sweep runs. The
sweep merely deletes the dead reservation record. -/
theorem sweeper_never_compensates :
    (∀ now s, ((cleanupExpiredReservations now s).2).stock = s.stock) ∧
    ((reserveScript 0 "o1" "SKU-1" 4 1 (⟨[("SKU-1", 10)], []⟩ : Store)).2
        = ⟨[("SKU-1", 6)], [(("o1", "SKU-1"), (4, 1))]⟩ ∧
      getResv 2 ⟨[("SKU-1", 6)], [(("o1", "SKU-1"), (4, 1))]⟩ "o1" "SKU-1" = none ∧
      cleanupExpiredReservations 2 ⟨[("SKU-1", 6)], [(("o1", "SKU-1"), (4, 1))]⟩
        = (1, ⟨[("SKU-1", 6)], []⟩) ∧
      cleanupExpiredReservations 2 (⟨[("SKU-1", 6)], []⟩ : Store)
        = (0, ⟨[("SKU-1", 6)], []⟩)) :=
  ⟨fun _ _ => rfl, by decide⟩

/-- C4: the reserve script has no existing-reservation check: a second
reserve for the same (orderId, SKU) pair succeeds again whenever stock
suffices, decrements the ledger a second time, and overwrites the existing
reservation record (here 3 units held become 2, so 3 units of stock leak:
final stock 5 plus held 2 no longer add up to the initial 10). -/
theorem reserve_same_pair_not_rejected :
    (reserveScript 0 "o1" "SKU-1" 3 900 (⟨[("SKU-1", 10)], []⟩ : Store)).1 = (1, 7) ∧
    (reserveScript 0 "o1" "SKU-1" 2 900
        (reserveScript 0 "o1" "SKU-1" 3 900 (⟨[("SKU-1", 10)], []⟩ : Store)).2).1
      = (1, 5) ∧
    (reserveScript 0 "o1" "SKU-1" 2 900
        (reserveScript 0 "o1" "SKU-1" 3 900 (⟨[("SKU-1", 10)], []⟩ : Store)).2).2
      = ⟨[("SKU-1", 5)], [(("o1", "SKU-1"), (2, 900))]⟩ ∧
    getStock (reserveScript 0 "o1" "SKU-1" 2 900
        (reserveScript 0 "o1" "SKU-1" 3 900 (⟨[("SKU-1", 10)], []⟩ : Store)).2).2 "SKU-1"
      + heldSum 0 "SKU-1" (reserveScript 0 "o1" "SKU-1" 2 900
        (reserveScript 0 "o1" "SKU-1" 3 900 (⟨[("SKU-1", 10)], []⟩ : Store)).2).2.resv
      = 7 := by decide

/-! ## Batch-reserve claims -/

/-- C5: when any item of the batch asks for more than its current stock,
the whole call leaves the store untouched — no decrement, no reservation
for any item — and returns overall failure together with the per-item
breakdown (sku key, pass flag, available, requested). -/
theorem batchReserve_all_or_nothing (now : Int) (orderId : String)
    (items : List (String × Int)) (ttl : Int) (s : Store)
    (h : ∃ it ∈ items, getStock s it.1 < it.2) :
    (batchReserveScript now orderId items ttl s).2 = s ∧
    (batchReserveScript now orderId items ttl s).1
      = (0, items.map (fun it =>
          if getStock s it.1 < it.2 then (it.1, 0, getStock s it.1, it.2)
          else (it.1, 1, getStock s it.1, it.2))) := by
  obtain ⟨it, hmem, hlt⟩ := h
  have hall : items.all (fun it => !decide (getStock s it.1 < it.2)) = false := by
    cases hb : items.all (fun it => !decide (getStock s it.1 < it.2)) with
    | false => rfl
    | true =>
        have hit := List.all_eq_true.mp hb it hmem
        simp only [Bool.not_eq_true', decide_eq_false_iff_not] at hit
        exact absurd hlt hit
  constructor
  · simp [batchReserveScript, hall]
  · simp [batchReserveScript, hall]

theorem batchReserve_all_or_nothing_witness :
    (∃ it ∈ [("SKU-A", (3:Int)), ("SKU-B", 1)],
        getStock (⟨[("SKU-A", 5), ("SKU-B", 0)], []⟩ : Store) it.1 < it.2) ∧
    (batchReserveScript 0 "order" [("SKU-A", 3), ("SKU-B", 1)] 900
        ⟨[("SKU-A", 5), ("SKU-B", 0)], []⟩).2 = ⟨[("SKU-A", 5), ("SKU-B", 0)], []⟩ ∧
    getStock (batchReserveScript 0 "order" [("SKU-A", 3), ("SKU-B", 1)] 900
        ⟨[("SKU-A", 5), ("SKU-B", 0)], []⟩).2 "SKU-A" = 5 ∧
    (batchReserveScript 0 "order" [("SKU-A", 3), ("SKU-B", 1)] 900
        ⟨[("SKU-A", 5), ("SKU-B", 0)], []⟩).1
      = (0, [("SKU-A", 1, 5, 3), ("SKU-B", 0, 0, 1)]) := by
  have h := batchReserve_all_or_nothing 0 "order" [("SKU-A", 3), ("SKU-B", 1)] 900
    ⟨[("SKU-A", 5), ("SKU-B", 0)], []⟩ (by decide)
  exact ⟨by decide, h.1, by decide, h.2.trans (by decide)⟩

/-- C10: the batch check phase reads every item's stock from the store as
it stood before any decrement: a batch listing the same SKU twice with
`q1 ≤ stock` and `q2 ≤ stock` passes both checks and succeeds, the ledger
ends at `stock - q1 - q2` (negative whenever `q1 + q2 > stock`), and the
second reservation write overwrites the first for the repeated
(orderId, SKU) pair. -/
theorem batchReserve_duplicate_sku (now : Int) (orderId sku : String)
    (q1 q2 ttl : Int) (s : Store)
    (h1 : q1 ≤ getStock s sku) (h2 : q2 ≤ getStock s sku) :
    (batchReserveScript now orderId [(sku, q1), (sku, q2)] ttl s).1
      = (1, [(sku, 1, getStock s sku, q1), (sku, 1, getStock s sku, q2)]) ∧
    getStock (batchReserveScript now orderId [(sku, q1), (sku, q2)] ttl s).2 sku
      = getStock s sku - q1 - q2 ∧
    alGet (batchReserveScript now orderId [(sku, q1), (sku, q2)] ttl s).2.resv
        (orderId, sku) = some (q2, now + ttl) ∧
    (getStock s sku < q1 + q2 →
      getStock (batchReserveScript now orderId [(sku, q1), (sku, q2)] ttl s).2 sku < 0) := by
  have c1 : ¬ (getStock s sku < q1) := not_lt.mpr h1
  have c2 : ¬ (getStock s sku < q2) := not_lt.mpr h2
  have hres : batchReserveScript now orderId [(sku, q1), (sku, q2)] ttl s
      = ((1, [(sku, 1, getStock s sku, q1), (sku, 1, getStock s sku, q2)]),
          [(sku, q1), (sku, q2)].foldl (batchApplyItem now orderId ttl) s) := by
    simp [batchReserveScript, c1, c2]
  have hstep : [(sku, q1), (sku, q2)].foldl (batchApplyItem now orderId ttl) s
      = ⟨alSet (alSet s.stock sku (getStock s sku - q1)) sku (getStock s sku - q1 - q2),
          alSet (alSet s.resv (orderId, sku) (q1, now + ttl)) (orderId, sku)
            (q2, now + ttl)⟩ := by
    simp [batchApplyItem, getStock, alGet_alSet_self]
  have hstock : getStock (batchReserveScript now orderId
      [(sku, q1), (sku, q2)] ttl s).2 sku = getStock s sku - q1 - q2 := by
    rw [hres]
    simp only [hstep]
    simp [getStock, alGet_alSet_self]
  refine ⟨by rw [hres], hstock, ?_, ?_⟩
  · rw [hres]
    simp only [hstep]
    simp [alGet_alSet_self]
  · intro hover
    rw [hstock]
    omega

theorem batchReserve_duplicate_sku_witness :
    (3:Int) ≤ getStock (⟨[("SKU-A", 5)], []⟩ : Store) "SKU-A" ∧
    (batchReserveScript 0 "o1" [("SKU-A", 3), ("SKU-A", 3)] 900
        (⟨[("SKU-A", 5)], []⟩ : Store)).1
      = (1, [("SKU-A", 1, 5, 3), ("SKU-A", 1, 5, 3)]) ∧
    getStock (batchReserveScript 0 "o1" [("SKU-A", 3), ("SKU-A", 3)] 900
        (⟨[("SKU-A", 5)], []⟩ : Store)).2 "SKU-A" = -1 ∧
    getStock (batchReserveScript 0 "o1" [("SKU-A", 3), ("SKU-A", 3)] 900
        (⟨[("SKU-A", 5)], []⟩ : Store)).2 "SKU-A" < 0 ∧
    alGet (batchReserveScript 0 "o1" [("SKU-A", 3), ("SKU-A", 3)] 900
        (⟨[("SKU-A", 5)], []⟩ : Store)).2.resv ("o1", "SKU-A") = some (3, 900) := by
  have h := batchReserve_duplicate_sku 0 "o1" "SKU-A" 3 3 900
    ⟨[("SKU-A", 5)], []⟩ (by decide) (by decide)
  exact ⟨by decide, h.1.trans (by decide), h.2.1.trans (by decide),
    h.2.2.2 (by decide), h.2.2.1.trans (by decide)⟩

/-! ## Trace semantics for the conservation invariant -/

/-- One call into the Reservation Engine: the four operations the invariant
claim quantifies over, each executed as its atomic script. -/
inductive EngineOp where
  | reserve (orderId sku : String) (qty ttl : Int)
  | batchReserve (orderId : String) (items : List (String × Int)) (ttl : Int)
  | release (orderId sku : String)
  | commit (orderId sku : String)
deriving DecidableEq

/-- The store after one engine operation (the scripts' state effect). -/
def applyOp (now : Int) : EngineOp → Store → Store
  | .reserve o sk q t, s => (reserveScript now o sk q t s).2
  | .batchReserve o its t, s => (batchReserveScript now o its t s).2
  | .release o sk, s => (releaseScript now o sk s).2
  | .commit o sk, s => (commitScript now o sk s).2

/-- Run a sequence of engine operations left to right. -/
def runOps (now : Int) (ops : List EngineOp) (s : Store) : Store :=
  ops.foldl (fun acc op => applyOp now op acc) s

/-- The committed sale quantity one operation contributes for a SKU: a
successful commit reports the reservation quantity it finalized (the
commit script's second return slot); everything else commits nothing. -/
def commitDelta (now : Int) (sku : String) (op : EngineOp) (s : Store) : Int :=
  match op with
  | .commit o sk => if sk = sku then (getResv now s o sk).getD 0 else 0
  | _ => 0

/-- Total committed sale quantity for a SKU along a trace. -/
def committedTotal (now : Int) (sku : String) : List EngineOp → Store → Int
  | [], _ => 0
  | op :: rest, s => commitDelta now sku op s + committedTotal now sku rest (applyOp now op s)

/-- Well-formed use of one operation in a state: reserve quantities are
positive (the spec's `qty > 0` precondition), TTLs are positive, and no
reservation is created for an (orderId, SKU) pair that already has a
record, nor for a SKU listed twice in one batch — exactly the uses the
code itself fails to police (see the C4, C9 and C10 findings). -/
def goodOp (now : Int) (s : Store) : EngineOp → Prop
  | .reserve o sk qty ttl => 0 < qty ∧ 0 < ttl ∧ alGet s.resv (o, sk) = none
  | .batchReserve o items ttl =>
      0 < ttl ∧ (items.map Prod.fst).Nodup ∧
      ∀ it ∈ items, 0 < it.2 ∧ alGet s.resv (o, it.1) = none
  | .release _ _ => True
  | .commit _ _ => True

instance instDecidableGoodOp (now : Int) (s : Store) (op : EngineOp) :
    Decidable (goodOp now s op) :=
  match op with
  | .reserve o sk qty ttl =>
      inferInstanceAs (Decidable (0 < qty ∧ 0 < ttl ∧ alGet s.resv (o, sk) = none))
  | .batchReserve o items ttl =>
      inferInstanceAs (Decidable (0 < ttl ∧ (items.map Prod.fst).Nodup ∧
        ∀ it ∈ items, 0 < it.2 ∧ alGet s.resv (o, it.1) = none))
  | .release _ _ => inferInstanceAs (Decidable True)
  | .commit _ _ => inferInstanceAs (Decidable True)

/-- Every operation of the trace is well-formed in the state it runs in. -/
def goodOps (now : Int) : List EngineOp → Store → Prop
  | [], _ => True
  | op :: rest, s => goodOp now s op ∧ goodOps now rest (applyOp now op s)

instance instDecidableGoodOps (now : Int) :
    (ops : List EngineOp) → (s : Store) → Decidable (goodOps now ops s)
  | [], _ => .isTrue trivial
  | op :: rest, s =>
      have : Decidable (goodOps now rest (applyOp now op s)) :=
        instDecidableGoodOps now rest (applyOp now op s)
      inferInstanceAs (Decidable (goodOp now s op ∧ goodOps now rest (applyOp now op s)))

/-- The reservation map is healthy at time `now`: keys are unique and every
record carries a positive quantity and an unexpired TTL. -/
def ResvWF (now : Int) (rs : ResvMap) : Prop :=
  (rs.map Prod.fst).Nodup ∧ ∀ e ∈ rs, 0 < e.2.1 ∧ now < e.2.2

/-! ## Preservation lemmas for the conservation invariant -/

theorem reserve_step_preserves (now : Int) (sku o sk : String) (qty ttl : Int)
    (s : Store) (hwf : ResvWF now s.resv) (hst : 0 ≤ getStock s sku)
    (hq : 0 < qty) (ht : 0 < ttl) (hfresh : alGet s.resv (o, sk) = none) :
    ResvWF now ((reserveScript now o sk qty ttl s).2).resv ∧
    0 ≤ getStock (reserveScript now o sk qty ttl s).2 sku ∧
    getStock (reserveScript now o sk qty ttl s).2 sku
      + heldSum now sku ((reserveScript now o sk qty ttl s).2).resv
      = getStock s sku + heldSum now sku s.resv := by
  by_cases hge : getStock s sk ≥ qty
  · have hres : (reserveScript now o sk qty ttl s).2
        = ⟨alSet s.stock sk (getStock s sk - qty),
            alSet s.resv (o, sk) (qty, now + ttl)⟩ := by
      simp [reserveScript, hge]
    have hlive : now < now + ttl := by omega
    have happ : alSet s.resv (o, sk) (qty, now + ttl)
        = s.resv ++ [((o, sk), (qty, now + ttl))] :=
      alSet_of_alGet_none _ _ _ hfresh
    have hwf' : ResvWF now (alSet s.resv (o, sk) (qty, now + ttl)) := by
      rw [happ]
      constructor
      · rw [List.map_append]
        refine hwf.1.append (by simp) ?_
        intro a ha hb
        simp only [List.map_cons, List.map_nil, List.mem_singleton] at hb
        subst hb
        exact (alGet_none_iff_not_mem_keys _ _).mp hfresh ha
      · intro e he
        rcases List.mem_append.mp he with he | he
        · exact hwf.2 e he
        · simp only [List.mem_singleton] at he
          subst he
          exact ⟨hq, hlive⟩
    have hheld : heldSum now sku (alSet s.resv (o, sk) (qty, now + ttl))
        = heldSum now sku s.resv + (if sk = sku then qty else 0) := by
      rw [heldSum_alSet_fresh now sku s.resv (o, sk) qty (now + ttl) hfresh]
      congr 1
      by_cases hsk : sk = sku
      · simp [hsk, hlive]
      · simp [hsk]
    rw [hres]
    by_cases hsk : sk = sku
    · subst hsk
      refine ⟨hwf', ?_, ?_⟩
      · rw [getStock_alSet_self]
        omega
      · show getStock ⟨alSet s.stock sk (getStock s sk - qty),
            alSet s.resv (o, sk) (qty, now + ttl)⟩ sk
          + heldSum now sk (alSet s.resv (o, sk) (qty, now + ttl))
          = getStock s sk + heldSum now sk s.resv
        rw [getStock_alSet_self, hheld, if_pos rfl]
        ring
    · have hstock : getStock (⟨alSet s.stock sk (getStock s sk - qty),
          alSet s.resv (o, sk) (qty, now + ttl)⟩ : Store) sku = getStock s sku :=
        getStock_alSet_ne s _ sku sk _ (Ne.symm hsk)
      refine ⟨hwf', ?_, ?_⟩
      · rw [hstock]
        exact hst
      · show getStock ⟨alSet s.stock sk (getStock s sk - qty),
            alSet s.resv (o, sk) (qty, now + ttl)⟩ sku
          + heldSum now sku (alSet s.resv (o, sk) (qty, now + ttl))
          = getStock s sku + heldSum now sku s.resv
        rw [hstock, hheld, if_neg hsk]
        ring
  · have hres : (reserveScript now o sk qty ttl s).2 = s := by
      simp [reserveScript, hge]
    rw [hres]
    exact ⟨hwf, hst, rfl⟩

theorem release_step_preserves (now : Int) (sku o sk : String) (s : Store)
    (hwf : ResvWF now s.resv) (hst : 0 ≤ getStock s sku) :
    ResvWF now ((releaseScript now o sk s).2).resv ∧
    0 ≤ getStock (releaseScript now o sk s).2 sku ∧
    getStock (releaseScript now o sk s).2 sku
      + heldSum now sku ((releaseScript now o sk s).2).resv
      = getStock s sku + heldSum now sku s.resv := by
  cases hm : getResv now s o sk with
  | none =>
      have hres : (releaseScript now o sk s).2 = s := by
        unfold releaseScript
        rw [hm]
      rw [hres]
      exact ⟨hwf, hst, rfl⟩
  | some q =>
      obtain ⟨e, hget, hlive⟩ := (getResv_eq_some now s o sk q).mp hm
      have hqpos : 0 < q := (hwf.2 _ (mem_of_alGet_eq_some _ _ _ hget)).1
      have hres : (releaseScript now o sk s).2
          = ⟨alSet s.stock sk (getStock s sk + q), alDel s.resv (o, sk)⟩ := by
        unfold releaseScript
        rw [hm]
      have hwf' : ResvWF now (alDel s.resv (o, sk)) :=
        ⟨(keys_alDel_sublist s.resv (o, sk)).nodup hwf.1,
          fun e' he' => hwf.2 e' (mem_alDel _ _ _ he')⟩
      have hheld : heldSum now sku (alDel s.resv (o, sk))
          = heldSum now sku s.resv - (if sk = sku then q else 0) := by
        rw [heldSum_alDel now sku s.resv (o, sk) q e hwf.1 hget]
        congr 1
        by_cases hsk : sk = sku
        · simp [hsk, hlive]
        · simp [hsk]
      rw [hres]
      by_cases hsk : sk = sku
      · subst hsk
        refine ⟨hwf', ?_, ?_⟩
        · rw [getStock_alSet_self]
          omega
        · show getStock ⟨alSet s.stock sk (getStock s sk + q), alDel s.resv (o, sk)⟩ sk
            + heldSum now sk (alDel s.resv (o, sk))
            = getStock s sk + heldSum now sk s.resv
          rw [getStock_alSet_self, hheld, if_pos rfl]
          ring
      · have hstock : getStock (⟨alSet s.stock sk (getStock s sk + q),
            alDel s.resv (o, sk)⟩ : Store) sku = getStock s sku :=
          getStock_alSet_ne s _ sku sk _ (Ne.symm hsk)
        refine ⟨hwf', ?_, ?_⟩
        · rw [hstock]
          exact hst
        · show getStock ⟨alSet s.stock sk (getStock s sk + q), alDel s.resv (o, sk)⟩ sku
            + heldSum now sku (alDel s.resv (o, sk))
            = getStock s sku + heldSum now sku s.resv
          rw [hstock, hheld, if_neg hsk]
          ring

theorem commit_step_preserves (now : Int) (sku o sk : String) (s : Store)
    (hwf : ResvWF now s.resv) (hst : 0 ≤ getStock s sku) :
    ResvWF now ((commitScript now o sk s).2).resv ∧
    0 ≤ getStock (commitScript now o sk s).2 sku ∧
    getStock (commitScript now o sk s).2 sku
      + heldSum now sku ((commitScript now o sk s).2).resv
      + commitDelta now sku (.commit o sk) s
      = getStock s sku + heldSum now sku s.resv := by
  cases hm : getResv now s o sk with
  | none =>
      have hres : (commitScript now o sk s).2 = s := by
        unfold commitScript
        rw [hm]
      have hd : commitDelta now sku (.commit o sk) s = 0 := by
        simp [commitDelta, hm]
      rw [hres, hd]
      exact ⟨hwf, hst, by ring⟩
  | some q =>
      obtain ⟨e, hget, hlive⟩ := (getResv_eq_some now s o sk q).mp hm
      have hres : (commitScript now o sk s).2
          = ⟨s.stock, alDel s.resv (o, sk)⟩ := by
        unfold commitScript
        rw [hm]
      have hwf' : ResvWF now (alDel s.resv (o, sk)) :=
        ⟨(keys_alDel_sublist s.resv (o, sk)).nodup hwf.1,
          fun e' he' => hwf.2 e' (mem_alDel _ _ _ he')⟩
      have hheld : heldSum now sku (alDel s.resv (o, sk))
          = heldSum now sku s.resv - (if sk = sku then q else 0) := by
        rw [heldSum_alDel now sku s.resv (o, sk) q e hwf.1 hget]
        congr 1
        by_cases hsk : sk = sku
        · simp [hsk, hlive]
        · simp [hsk]
      have hd : commitDelta now sku (.commit o sk) s = (if sk = sku then q else 0) := by
        simp [commitDelta, hm]
      have hstock : getStock (⟨s.stock, alDel s.resv (o, sk)⟩ : Store) sku
          = getStock s sku := rfl
      rw [hres, hd]
      refine ⟨hwf', ?_, ?_⟩
      · rw [hstock]
        exact hst
      · show getStock ⟨s.stock, alDel s.resv (o, sk)⟩ sku
          + heldSum now sku (alDel s.resv (o, sk))
          + (if sk = sku then q else 0)
          = getStock s sku + heldSum now sku s.resv
        rw [hstock, hheld]
        ring

theorem batch_fold_preserves (now : Int) (sku o : String) (ttl : Int) (ht : 0 < ttl)
    (items : List (String × Int)) :
    ∀ s : Store, ResvWF now s.resv → 0 ≤ getStock s sku →
      (items.map Prod.fst).Nodup →
      (∀ it ∈ items, 0 < it.2 ∧ alGet s.resv (o, it.1) = none ∧ it.2 ≤ getStock s it.1) →
      ResvWF now ((items.foldl (batchApplyItem now o ttl) s)).resv ∧
      0 ≤ getStock (items.foldl (batchApplyItem now o ttl) s) sku ∧
      getStock (items.foldl (batchApplyItem now o ttl) s) sku
        + heldSum now sku ((items.foldl (batchApplyItem now o ttl) s)).resv
        = getStock s sku + heldSum now sku s.resv := by
  induction items with
  | nil =>
      intro s hwf hst _ _
      exact ⟨hwf, hst, rfl⟩
  | cons it rest ih =>
      intro s hwf hst hnd hall
      obtain ⟨hq, hfresh, hle⟩ := hall it (List.mem_cons_self it rest)
      simp only [List.map_cons, List.nodup_cons] at hnd
      have hge : getStock s it.1 ≥ it.2 := hle
      have hs1e : batchApplyItem now o ttl s it
          = (reserveScript now o it.1 it.2 ttl s).2 := by
        simp [batchApplyItem, reserveScript, hge]
      have hstep := reserve_step_preserves now sku o it.1 it.2 ttl s hwf hst hq ht hfresh
      have hall1 : ∀ it' ∈ rest, 0 < it'.2 ∧
          alGet (batchApplyItem now o ttl s it).resv (o, it'.1) = none ∧
          it'.2 ≤ getStock (batchApplyItem now o ttl s it) it'.1 := by
        intro it' hm
        have hne : it'.1 ≠ it.1 := by
          intro hc
          exact hnd.1 (hc ▸ List.mem_map_of_mem Prod.fst hm)
        have hkne : (o, it'.1) ≠ (o, it.1) := fun hc => hne (congrArg Prod.snd hc)
        refine ⟨(hall it' (List.mem_cons_of_mem it hm)).1, ?_, ?_⟩
        · show alGet (alSet s.resv (o, it.1) (it.2, now + ttl)) (o, it'.1) = none
          rw [alGet_alSet_ne _ _ _ _ hkne]
          exact (hall it' (List.mem_cons_of_mem it hm)).2.1
        · show it'.2 ≤ getStock ⟨alSet s.stock it.1 (getStock s it.1 - it.2),
              alSet s.resv (o, it.1) (it.2, now + ttl)⟩ it'.1
          rw [getStock_alSet_ne s _ it'.1 it.1 _ hne]
          exact (hall it' (List.mem_cons_of_mem it hm)).2.2
      have hwf1 : ResvWF now ((batchApplyItem now o ttl s it)).resv := by
        rw [hs1e]
        exact hstep.1
      have hst1 : 0 ≤ getStock (batchApplyItem now o ttl s it) sku := by
        rw [hs1e]
        exact hstep.2.1
      have hih := ih (batchApplyItem now o ttl s it) hwf1 hst1 hnd.2 hall1
      have hfold : (it :: rest).foldl (batchApplyItem now o ttl) s
          = rest.foldl (batchApplyItem now o ttl) (batchApplyItem now o ttl s it) := rfl
      rw [hfold]
      refine ⟨hih.1, hih.2.1, ?_⟩
      have hcons : getStock (batchApplyItem now o ttl s it) sku
          + heldSum now sku ((batchApplyItem now o ttl s it)).resv
          = getStock s sku + heldSum now sku s.resv := by
        rw [hs1e]
        exact hstep.2.2
      linarith [hih.2.2, hcons]

theorem batch_step_preserves (now : Int) (sku o : String)
    (items : List (String × Int)) (ttl : Int) (s : Store)
    (hwf : ResvWF now s.resv) (hst : 0 ≤ getStock s sku)
    (ht : 0 < ttl) (hnd : (items.map Prod.fst).Nodup)
    (hall : ∀ it ∈ items, 0 < it.2 ∧ alGet s.resv (o, it.1) = none) :
    ResvWF now ((batchReserveScript now o items ttl s).2).resv ∧
    0 ≤ getStock (batchReserveScript now o items ttl s).2 sku ∧
    getStock (batchReserveScript now o items ttl s).2 sku
      + heldSum now sku ((batchReserveScript now o items ttl s).2).resv
      = getStock s sku + heldSum now sku s.resv := by
  cases hbs : items.all (fun it => !decide (getStock s it.1 < it.2)) with
  | false =>
      have hres : (batchReserveScript now o items ttl s).2 = s := by
        simp [batchReserveScript, hbs]
      rw [hres]
      exact ⟨hwf, hst, rfl⟩
  | true =>
      have hres : (batchReserveScript now o items ttl s).2
          = items.foldl (batchApplyItem now o ttl) s := by
        simp [batchReserveScript, hbs]
      have hpass : ∀ it ∈ items, it.2 ≤ getStock s it.1 := by
        intro it hmem
        have hb := List.all_eq_true.mp hbs it hmem
        simp only [Bool.not_eq_true', decide_eq_false_iff_not, not_lt] at hb
        exact hb
      rw [hres]
      exact batch_fold_preserves now sku o ttl ht items s hwf hst hnd
        (fun it hm => ⟨(hall it hm).1, (hall it hm).2, hpass it hm⟩)

theorem applyOp_preserves (now : Int) (sku : String) (op : EngineOp) (s : Store)
    (hwf : ResvWF now s.resv) (hst : 0 ≤ getStock s sku) (hop : goodOp now s op) :
    ResvWF now ((applyOp now op s)).resv ∧
    0 ≤ getStock (applyOp now op s) sku ∧
    getStock (applyOp now op s) sku + heldSum now sku ((applyOp now op s)).resv
      + commitDelta now sku op s
      = getStock s sku + heldSum now sku s.resv := by
  cases op with
  | reserve o sk qty ttl =>
      obtain ⟨hq, ht, hfresh⟩ := hop
      have h := reserve_step_preserves now sku o sk qty ttl s hwf hst hq ht hfresh
      refine ⟨h.1, h.2.1, ?_⟩
      show getStock (reserveScript now o sk qty ttl s).2 sku
        + heldSum now sku ((reserveScript now o sk qty ttl s).2).resv + 0
        = getStock s sku + heldSum now sku s.resv
      linarith [h.2.2]
  | batchReserve o items ttl =>
      obtain ⟨ht, hnd, hall⟩ := hop
      have h := batch_step_preserves now sku o items ttl s hwf hst ht hnd hall
      refine ⟨h.1, h.2.1, ?_⟩
      show getStock (batchReserveScript now o items ttl s).2 sku
        + heldSum now sku ((batchReserveScript now o items ttl s).2).resv + 0
        = getStock s sku + heldSum now sku s.resv
      linarith [h.2.2]
  | release o sk =>
      have h := release_step_preserves now sku o sk s hwf hst
      refine ⟨h.1, h.2.1, ?_⟩
      show getStock (releaseScript now o sk s).2 sku
        + heldSum now sku ((releaseScript now o sk s).2).resv + 0
        = getStock s sku + heldSum now sku s.resv
      linarith [h.2.2]
  | commit o sk =>
      exact commit_step_preserves now sku o sk s hwf hst

theorem runOps_invariant (now : Int) (sku : String) (ops : List EngineOp) :
    ∀ s : Store, ResvWF now s.resv → 0 ≤ getStock s sku → goodOps now ops s →
      ResvWF now ((runOps now ops s)).resv ∧
      0 ≤ getStock (runOps now ops s) sku ∧
      getStock (runOps now ops s) sku + heldSum now sku ((runOps now ops s)).resv
        + committedTotal now sku ops s
        = getStock s sku + heldSum now sku s.resv := by
  induction ops with
  | nil =>
      intro s hwf hst _
      exact ⟨hwf, hst, by simp [runOps, committedTotal]⟩
  | cons op rest ih =>
      intro s hwf hst hops
      obtain ⟨hop, hrest⟩ := hops
      have h1 := applyOp_preserves now sku op s hwf hst hop
      have h2 := ih (applyOp now op s) h1.1 h1.2.1 hrest
      have hrun : runOps now (op :: rest) s = runOps now rest (applyOp now op s) := rfl
      have hct : committedTotal now sku (op :: rest) s
          = commitDelta now sku op s + committedTotal now sku rest (applyOp now op s) := rfl
      rw [hrun, hct]
      exact ⟨h2.1, h2.2.1, by linarith [h1.2.2, h2.2.2]⟩

/-! ## The conservation claim -/

/-- C1 (amended): for every SKU and every sequence of reserve /
batchReserve / release / commit operations from an initialized stock level
with an empty reservation store, PROVIDED each reserve and batch item uses
a positive quantity and positive TTL, no reservation is created for an
(orderId, SKU) pair that already has a record, and no batch lists one SKU
twice (conditions the code itself does not enforce — see the C4, C9, C10
findings — whose violation refutes the unconditional claim), the ledger
stock stays non-negative and committed sales + currently-held reservations
+ remaining ledger stock equals the initial stock level. -/
theorem engine_conservation (now : Int) (sku : String) (ops : List EngineOp)
    (init : StockMap) (hstock : 0 ≤ getStock ⟨init, []⟩ sku)
    (hops : goodOps now ops ⟨init, []⟩) :
    0 ≤ getStock (runOps now ops ⟨init, []⟩) sku ∧
    committedTotal now sku ops ⟨init, []⟩
      + heldSum now sku (runOps now ops ⟨init, []⟩).resv
      + getStock (runOps now ops ⟨init, []⟩) sku
      = getStock (⟨init, []⟩ : Store) sku := by
  have hwf0 : ResvWF now (([] : ResvMap)) := ⟨List.nodup_nil, by simp⟩
  have h := runOps_invariant now sku ops ⟨init, []⟩ hwf0 hstock hops
  refine ⟨h.2.1, ?_⟩
  have he := h.2.2
  rw [heldSum_nil] at he
  linarith [he]

/-- C1 as literally stated is false on the code: from initialized stock 5
for SKU-A and no reservations, the single engine operation
`batchReserve o1 [(SKU-A, 3), (SKU-A, 3)] 900` drives the ledger to −1,
violating `ledger_stock >= 0`. -/
theorem engine_conservation_counterexample :
    getStock (runOps 0 [.batchReserve "o1" [("SKU-A", 3), ("SKU-A", 3)] 900]
      ⟨[("SKU-A", 5)], []⟩) "SKU-A" = -1 ∧
    getStock (runOps 0 [.batchReserve "o1" [("SKU-A", 3), ("SKU-A", 3)] 900]
      ⟨[("SKU-A", 5)], []⟩) "SKU-A" < 0 := by decide

theorem engine_conservation_witness :
    0 ≤ getStock (⟨[("A", 10), ("B", 4)], []⟩ : Store) "A" ∧
    goodOps 0 [.reserve "o1" "A" 3 900,
        .batchReserve "o2" [("A", 2), ("B", 1)] 600,
        .commit "o1" "A", .release "o2" "A"] ⟨[("A", 10), ("B", 4)], []⟩ ∧
    (0 ≤ getStock (runOps 0 [.reserve "o1" "A" 3 900,
        .batchReserve "o2" [("A", 2), ("B", 1)] 600,
        .commit "o1" "A", .release "o2" "A"] ⟨[("A", 10), ("B", 4)], []⟩) "A" ∧
      committedTotal 0 "A" [.reserve "o1" "A" 3 900,
          .batchReserve "o2" [("A", 2), ("B", 1)] 600,
          .commit "o1" "A", .release "o2" "A"] ⟨[("A", 10), ("B", 4)], []⟩
        + heldSum 0 "A" (runOps 0 [.reserve "o1" "A" 3 900,
            .batchReserve "o2" [("A", 2), ("B", 1)] 600,
            .commit "o1" "A", .release "o2" "A"] ⟨[("A", 10), ("B", 4)], []⟩).resv
        + getStock (runOps 0 [.reserve "o1" "A" 3 900,
            .batchReserve "o2" [("A", 2), ("B", 1)] 600,
            .commit "o1" "A", .release "o2" "A"] ⟨[("A", 10), ("B", 4)], []⟩) "A"
        = getStock (⟨[("A", 10), ("B", 4)], []⟩ : Store) "A") :=
  ⟨by decide, by decide,
    engine_conservation 0 "A" [.reserve "o1" "A" 3 900,
      .batchReserve "o2" [("A", 2), ("B", 1)] 600,
      .commit "o1" "A", .release "o2" "A"] [("A", 10), ("B", 4)]
      (by decide) (by decide)⟩

end Aether
